import Mathlib

/-!
Verification development for the `webscraper` repository (`src/crawl.ts`).

The TypeScript source is shallowly embedded as follows.

* The WHATWG `URL` platform library (an external collaborator of the code:
  the source only calls `new URL(u)`, `new URL(ref, base)`, `.host`,
  `.hostname`, `.pathname`, `.toString()`) is modelled by `parseURL`,
  `resolveURL`, `serializeURL` over a record `URLRec`.  The model covers
  hierarchical `scheme://host/path?query#hash` URLs: the scheme must be
  alphabetic and followed by `://`, the authority is lowercased, the
  pathname defaults to `/`.  Userinfo, default-port dropping, percent
  encoding and dot-segment normalization of the platform parser are out of
  scope of the model; no claim depends on them.
* The JSDOM HTML parser (external collaborator: the source only uses
  `querySelector`, `querySelectorAll`, `getAttribute`, `textContent`) is
  modelled by a document tree `Node`; the extraction functions take the
  parsed document (`Doc`) where the source takes the raw HTML string, and a
  parsing oracle `P : String → Doc` stands for `new JSDOM(html)` inside
  `crawlPage`.
* `fetch` is modelled by an oracle `F : String → FetchResult` giving the
  network-level outcome for each URL; `getHTML` maps that outcome exactly
  as the source does (`Except` models `throw`, `Option` models the
  `undefined` returns).
* `crawlPage` is fuel-indexed: `CrawlResult.noFuel` is the artefact for
  exhausted recursion depth, `CrawlResult.urlErr` models an exception
  thrown by `new URL` escaping the call.  Besides the `pages` map the
  embedding returns two ghost logs: the normalized keys whose URL was
  fetched (`getHTML` invoked) and the normalized keys encountered
  (reaching the visited-map test or insertion), which make "no fetch" and
  "no recursive descent" statements expressible.
-/

/-- ASCII lowercasing of a single character, as the URL parser applies to
the authority (hosts are ASCII in the modelled subset). -/
def lowerChar : Char → Char
  | 'A' => 'a'
  | 'B' => 'b'
  | 'C' => 'c'
  | 'D' => 'd'
  | 'E' => 'e'
  | 'F' => 'f'
  | 'G' => 'g'
  | 'H' => 'h'
  | 'I' => 'i'
  | 'J' => 'j'
  | 'K' => 'k'
  | 'L' => 'l'
  | 'M' => 'm'
  | 'N' => 'n'
  | 'O' => 'o'
  | 'P' => 'p'
  | 'Q' => 'q'
  | 'R' => 'r'
  | 'S' => 's'
  | 'T' => 't'
  | 'U' => 'u'
  | 'V' => 'v'
  | 'W' => 'w'
  | 'X' => 'x'
  | 'Y' => 'y'
  | 'Z' => 'z'
  | c => c

/-- A parsed URL: the fields the source reads off a WHATWG `URL` object.
`host` includes the port when present; `search` is empty or starts with
`?`; `hash` is empty or starts with `#`. -/
structure URLRec where
  scheme : String
  host : String
  pathname : String
  search : String
  hash : String
deriving DecidableEq, Repr

/-- The `hostname` accessor of a URL object: the host without the port. -/
def URLRec.hostname (u : URLRec) : String :=
  String.mk (u.host.data.takeWhile (fun c => c != ':'))

/-- Character allowed inside the authority component (stops at the first
path, query or fragment delimiter). -/
def isAuthChar (c : Char) : Bool :=
  c != '/' && c != '?' && c != '#'

/-- Character allowed inside the path component (stops at the first query
or fragment delimiter). -/
def isPathChar (c : Char) : Bool :=
  c != '?' && c != '#'

/-- Core of the URL parser, on character lists. -/
def parseURLChars (cs : List Char) : Option URLRec :=
  let scheme := cs.takeWhile (fun c => c != ':')
  if scheme = [] ∨ ¬ scheme.all Char.isAlpha then none
  else
    match cs.dropWhile (fun c => c != ':') with
    | ':' :: '/' :: '/' :: rest =>
      let auth := rest.takeWhile isAuthChar
      if auth = [] then none
      else
        let afterAuth := rest.dropWhile isAuthChar
        let path := afterAuth.takeWhile isPathChar
        let afterPath := afterAuth.dropWhile isPathChar
        some { scheme := String.mk (scheme.map lowerChar)
               host := String.mk (auth.map lowerChar)
               pathname := String.mk (if path = [] then ['/'] else path)
               search := String.mk (afterPath.takeWhile (fun c => c != '#'))
               hash := String.mk (afterPath.dropWhile (fun c => c != '#')) }
    | _ => none

/-- Model of `new URL(s)` for an absolute URL string: `some` on success,
`none` where the platform constructor throws. -/
def parseURL (s : String) : Option URLRec :=
  parseURLChars s.data

/-- Model of `url.toString()` on a URL object. -/
def serializeURL (u : URLRec) : String :=
  u.scheme ++ "://" ++ u.host ++ u.pathname ++ u.search ++ u.hash

/-- Does the string start with an alphabetic scheme followed by `:`?  Used
to decide whether a reference is an (attempted) absolute URL rather than a
relative one. -/
def hasScheme (s : String) : Bool :=
  let sch := s.data.takeWhile (fun c => c != ':')
  decide (sch ≠ []) && sch.all Char.isAlpha && decide (s.data.dropWhile (fun c => c != ':') ≠ [])

/-- Splits a path-query-fragment suffix into its three components. -/
def splitRef (cs : List Char) : List Char × List Char × List Char :=
  let path := cs.takeWhile isPathChar
  let afterPath := cs.dropWhile isPathChar
  (path, afterPath.takeWhile (fun c => c != '#'), afterPath.dropWhile (fun c => c != '#'))

/-- The base directory of a pathname: everything up to and including the
last `/`. -/
def dirOf (path : List Char) : List Char :=
  (path.reverse.dropWhile (fun c => c != '/')).reverse

/-- Model of `new URL(ref, base).toString()`: resolves a possibly-relative
reference against a base URL, `none` where the platform constructor
throws (malformed reference). -/
def resolveURL (ref base : String) : Option String :=
  match parseURL ref with
  | some r => some (serializeURL r)
  | none =>
    if hasScheme ref then none
    else
      match parseURL base with
      | none => none
      | some rb =>
        match ref.data with
        | [] => some (serializeURL { rb with hash := "" })
        | '/' :: '/' :: _ => (parseURL (rb.scheme ++ ":" ++ ref)).map serializeURL
        | '/' :: _ =>
          let (p, q, h) := splitRef ref.data
          some (serializeURL
            { rb with
              pathname := String.mk p
              search := String.mk q
              hash := String.mk h })
        | '?' :: _ =>
          some (serializeURL
            { rb with
              search := String.mk (ref.data.takeWhile (fun c => c != '#'))
              hash := String.mk (ref.data.dropWhile (fun c => c != '#')) })
        | '#' :: _ => some (serializeURL { rb with hash := ref })
        | _ =>
          let (p, q, h) := splitRef ref.data
          some (serializeURL
            { rb with
              pathname := String.mk (dirOf rb.pathname.data ++ p)
              search := String.mk q
              hash := String.mk h })

/-- The normalized dedup key computed from a parsed URL: `host + pathname`
with one trailing slash stripped (the body of `normalizeURL` after
`new URL(url)`). -/
def normKey (u : URLRec) : String :=
  let fullPath := u.host.data ++ u.pathname.data
  String.mk (if fullPath.getLast? = some '/' then fullPath.dropLast else fullPath)

/-- `normalizeURL(url)` from `crawl.ts`: parse, then `host + pathname`
with at most one trailing `/` removed; `none` models the propagated parse
error on unparseable input. -/
def normalizeURL (url : String) : Option String :=
  (parseURL url).map normKey

example : parseURL "https://blog.boot.dev/path" =
    some { scheme := "https", host := "blog.boot.dev", pathname := "/path",
           search := "", hash := "" } := by decide

example : normalizeURL "https://blog.boot.dev/path" = some "blog.boot.dev/path" := by decide

example : normalizeURL "https://blog.boot.dev/path/" = some "blog.boot.dev/path" := by decide

example : normalizeURL "https://BLOG.boot.dev/path" = some "blog.boot.dev/path" := by decide

example : normalizeURL "http://BLOG.boot.dev/path" = some "blog.boot.dev/path" := by decide

example : resolveURL "/path/one" "https://blog.boot.dev" =
    some "https://blog.boot.dev/path/one" := by decide

example : resolveURL "https://blog.boot.dev" "https://blog.boot.dev" =
    some "https://blog.boot.dev/" := by decide

example : resolveURL "http://" "https://blog.boot.dev" = none := by decide

/-- A node of the parsed HTML document tree, the view of the JSDOM
document the source reads: elements with a tag, attributes and children,
and text nodes. -/
inductive Node where
  | elem (tag : String) (attrs : List (String × String)) (children : List Node)
  | text (s : String)
deriving Repr

/-- A parsed document: the forest of top-level nodes. -/
abbrev Doc := List Node

mutual

/-- All elements with the given tag inside one node, in document
(pre-order) order, the node itself included. -/
def selectAllN (tag : String) : Node → List Node
  | Node.text _ => []
  | Node.elem t a c => (if t = tag then [Node.elem t a c] else []) ++ selectAllL tag c

/-- All elements with the given tag inside a forest, in document order. -/
def selectAllL (tag : String) : List Node → List Node
  | [] => []
  | n :: rest => selectAllN tag n ++ selectAllL tag rest

end

/-- `document.querySelectorAll(tag)` for a tag selector. -/
def querySelectorAll (d : Doc) (tag : String) : List Node :=
  selectAllL tag d

/-- `document.querySelector(tag)`: the first element with the tag in
document order, if any. -/
def querySelector (d : Doc) (tag : String) : Option Node :=
  (selectAllL tag d).head?

/-- `element.querySelector(tag)`: the first matching descendant of the
element (the element itself is not a candidate). -/
def Node.queryDesc : Node → String → Option Node
  | Node.elem _ _ c, tag => (selectAllL tag c).head?
  | Node.text _, _ => none

mutual

/-- `node.textContent`: the concatenated data of all text descendants. -/
def textContentN : Node → String
  | Node.text s => s
  | Node.elem _ _ c => textContentL c

/-- `textContent` of a forest, in document order. -/
def textContentL : List Node → String
  | [] => ""
  | n :: rest => textContentN n ++ textContentL rest

end

/-- Model of `String.prototype.trim`: drop whitespace from both ends
(character-level embedding of the platform `trim`). -/
def trimString (s : String) : String :=
  String.mk (((s.data.dropWhile Char.isWhitespace).reverse.dropWhile Char.isWhitespace).reverse)

/-- `element.getAttribute(name)`: first binding of the attribute, `none`
when absent (the platform returns `null`). -/
def Node.getAttr (n : Node) (name : String) : Option String :=
  match n with
  | Node.elem _ attrs _ => (attrs.find? (fun kv => kv.1 == name)).map (·.2)
  | Node.text _ => none

/-- `getH1FromHTML` from `crawl.ts`, on the parsed document: the first
`h1`'s trimmed text, or the empty string. -/
def getH1FromHTML (doc : Doc) : String :=
  trimString (match querySelector doc "h1" with
   | some h1 => textContentN h1
   | none => "")

/-- `getFirstParagraphFromHTML` from `crawl.ts`, on the parsed document:
`main?.querySelector("p") ?? doc.querySelector("p")`, trimmed text or
empty string. -/
def getFirstParagraphFromHTML (doc : Doc) : String :=
  let mainEl := querySelector doc "main"
  let p := match mainEl with
    | some m =>
      match m.queryDesc "p" with
      | some q => some q
      | none => querySelector doc "p"
    | none => querySelector doc "p"
  trimString (match p with
   | some q => textContentN q
   | none => "")

/-- `getURLsFromHTML` from `crawl.ts`, on the parsed document: walk the
anchors in document order, skip a falsy (`null` or empty) `href`, resolve
against the base and push, skipping references the URL constructor rejects. -/
def getURLsFromHTML (doc : Doc) (baseURL : String) : List String :=
  List.foldl
    (fun urls a =>
      match a.getAttr "href" with
      | none => urls
      | some href =>
        if href = "" then urls
        else
          match resolveURL href baseURL with
          | some u => urls ++ [u]
          | none => urls)
    [] (querySelectorAll doc "a")

/-- `getImagesFromHTML` from `crawl.ts`, on the parsed document: same as
the anchor walk, over `img` elements and their `src`. -/
def getImagesFromHTML (doc : Doc) (baseURL : String) : List String :=
  List.foldl
    (fun imageURLs img =>
      match img.getAttr "src" with
      | none => imageURLs
      | some src =>
        if src = "" then imageURLs
        else
          match resolveURL src baseURL with
          | some u => imageURLs ++ [u]
          | none => imageURLs)
    [] (querySelectorAll doc "img")

/-- The `ExtractedPageData` record of `crawl.ts`. -/
structure ExtractedPageData where
  url : String
  h1 : String
  first_paragraph : String
  outgoing_links : List String
  image_urls : List String
deriving DecidableEq, Repr

/-- `extractPageData` from `crawl.ts`. -/
def extractPageData (doc : Doc) (pageURL : String) : ExtractedPageData :=
  { url := pageURL
    h1 := getH1FromHTML doc
    first_paragraph := getFirstParagraphFromHTML doc
    outgoing_links := getURLsFromHTML doc pageURL
    image_urls := getImagesFromHTML doc pageURL }

/-- Outcome of the platform `fetch` call for one URL: either a
network-level failure (the promise rejects) or a response with status,
optional `content-type` header and body text. -/
inductive FetchResult where
  | networkError (msg : String)
  | response (status : Nat) (contentType : Option String) (body : String)
deriving DecidableEq, Repr

/-- Is `pat` a leading segment of `s`? -/
def isLeadOf : List Char → List Char → Bool
  | [], _ => true
  | _ :: _, [] => false
  | a :: as, b :: bs => a == b && isLeadOf as bs

/-- Substring test on character lists, for `String.prototype.includes`. -/
def containsSub (pat : List Char) : List Char → Bool
  | [] => decide (pat = [])
  | c :: rest => isLeadOf pat (c :: rest) || containsSub pat rest

/-- `s.includes(pat)` of JavaScript strings. -/
def containsSubstr (s pat : String) : Bool :=
  containsSub pat.data s.data

/-- `getHTML` from `crawl.ts`, as a function of the fetch outcome:
network failure is re-thrown as an error (`Except.error`), a status above
399 or a missing or non-HTML `content-type` yields `undefined`
(`Option.none`), and only a successful HTML response yields the body. -/
def getHTML (r : FetchResult) : Except String (Option String) :=
  match r with
  | FetchResult.networkError msg => Except.error ("Got Network error: " ++ msg)
  | FetchResult.response status contentType body =>
    if status > 399 then Except.ok none
    else
      match contentType with
      | none => Except.ok none
      | some ct =>
        if containsSubstr ct "text/html" then Except.ok (some body)
        else Except.ok none

example :
    getFirstParagraphFromHTML
      [Node.elem "html" [] [Node.elem "body" []
        [Node.elem "p" [] [Node.text "Outside paragraph."],
         Node.elem "main" [] [Node.elem "p" [] [Node.text "Main paragraph."]]]]] =
    "Main paragraph." := by decide

example :
    getFirstParagraphFromHTML
      [Node.elem "html" [] [Node.elem "body" []
        [Node.elem "p" [] [Node.text "First outside paragraph."],
         Node.elem "p" [] [Node.text "Second outside paragraph."]]]] =
    "First outside paragraph." := by decide

example :
    getFirstParagraphFromHTML
      [Node.elem "html" [] [Node.elem "body" [] [Node.elem "h1" [] [Node.text "Title"]]]] =
    "" := by decide

example :
    getH1FromHTML
      [Node.elem "html" [] [Node.elem "body" [] [Node.elem "h1" [] [Node.text "Test Title"]]]] =
    "Test Title" := by decide

example :
    getURLsFromHTML
      [Node.elem "html" [] [Node.elem "body" []
        [Node.elem "a" [("href", "https://blog.boot.dev")]
          [Node.elem "span" [] [Node.text "Boot.dev"]]]]]
      "https://blog.boot.dev" = ["https://blog.boot.dev/"] := by decide

example :
    getURLsFromHTML
      [Node.elem "html" [] [Node.elem "body" []
        [Node.elem "a" [("href", "/path/one")] [Node.elem "span" [] [Node.text "Boot.dev"]],
         Node.elem "a" [("href", "https://other.com/path/one")]
           [Node.elem "span" [] [Node.text "Boot.dev"]]]]]
      "https://blog.boot.dev" =
    ["https://blog.boot.dev/path/one", "https://other.com/path/one"] := by decide

example :
    getImagesFromHTML
      [Node.elem "html" [] [Node.elem "body" []
        [Node.elem "img" [("src", "/logo.png"), ("alt", "Logo")] [],
         Node.elem "img" [("src", "https://cdn.boot.dev/banner.jpg")] []]]]
      "https://blog.boot.dev" =
    ["https://blog.boot.dev/logo.png", "https://cdn.boot.dev/banner.jpg"] := by decide

example :
    extractPageData
      [Node.elem "html" [] [Node.elem "body" []
        [Node.elem "h1" [] [Node.text "Test Title"],
         Node.elem "p" [] [Node.text "This is the first paragraph."],
         Node.elem "a" [("href", "/link1")] [Node.text "Link 1"],
         Node.elem "img" [("src", "/image1.jpg"), ("alt", "Image 1")] []]]]
      "https://blog.boot.dev" =
    { url := "https://blog.boot.dev"
      h1 := "Test Title"
      first_paragraph := "This is the first paragraph."
      outgoing_links := ["https://blog.boot.dev/link1"]
      image_urls := ["https://blog.boot.dev/image1.jpg"] } := by decide

example :
    extractPageData
      [Node.elem "html" [] [Node.elem "body" []
        [Node.elem "div" [] [Node.text "No h1, p, links, or images"]]]]
      "https://blog.boot.dev" =
    { url := "https://blog.boot.dev", h1 := "", first_paragraph := ""
      outgoing_links := [], image_urls := [] } := by decide

example : getHTML (FetchResult.response 404 (some "text/html") "x") = Except.ok none := rfl

example :
    getHTML (FetchResult.response 200 (some "text/html; charset=utf-8") "<p>") =
    Except.ok (some "<p>") := rfl

example : getHTML (FetchResult.response 200 (some "application/json") "x") =
    Except.ok none := rfl

example : getHTML (FetchResult.networkError "boom") =
    Except.error "Got Network error: boom" := rfl

/-- The visited map `pages : Record<string, number>`: an association list
from normalized URL key to visit count (at most one binding per key for
maps built by the crawl). -/
abbrev Pages := List (String × Nat)

/-- `pages[k]`, with absent keys reading as `0` (in the source an absent
key reads as `undefined`, which fails the `> 0` test exactly as `0`
does). -/
def lookupCount (pages : Pages) (k : String) : Nat :=
  match pages.find? (fun kv => kv.1 == k) with
  | some kv => kv.2
  | none => 0

/-- `pages[k] = n`: replace the binding in place, or append a fresh one. -/
def setCount : Pages → String → Nat → Pages
  | [], k, n => [(k, n)]
  | kv :: rest, k, n => if kv.1 == k then (k, n) :: rest else kv :: setCount rest k n

/-- Result of one (fuel-indexed) `crawlPage` call: the updated map plus
two ghost logs — the normalized keys whose URL was fetched and the
normalized keys encountered — or a thrown `new URL` error, or fuel
exhaustion (a model artefact; the source recursion has no depth bound). -/
inductive CrawlResult where
  | ok (pages : Pages) (fetched : List String) (encountered : List String)
  | urlErr
  | noFuel
deriving DecidableEq, Repr

/-- The `for (const nextURL of nextURLs)` loop of `crawlPage`: visit each
link in order with the one-page visitor `rec`, threading the map through;
a thrown error or fuel exhaustion aborts the loop and propagates. -/
def crawlList (rec : String → Pages → CrawlResult) : List String → Pages → CrawlResult
  | [], pages => CrawlResult.ok pages [] []
  | u :: rest, pages =>
    match rec u pages with
    | CrawlResult.ok p1 f1 e1 =>
      match crawlList rec rest p1 with
      | CrawlResult.ok p2 f2 e2 => CrawlResult.ok p2 (f1 ++ f2) (e1 ++ e2)
      | CrawlResult.urlErr => CrawlResult.urlErr
      | CrawlResult.noFuel => CrawlResult.noFuel
    | CrawlResult.urlErr => CrawlResult.urlErr
    | CrawlResult.noFuel => CrawlResult.noFuel

/-- `crawlPage(baseURL, currentURL, pages)` from `crawl.ts`, fuel-indexed.
`F` models `fetch`, `P` models JSDOM parsing.  Steps, as in the source:
parse both URLs (a failure throws), return the map unchanged when the
hostnames differ, increment and return when the normalized key is already
visited, otherwise insert the key with count 1 *before* fetching, stop on
any non-success fetch outcome (including the falsy empty body), else
extract the links against `baseURL` and recurse over them in order. -/
def crawlPage (F : String → FetchResult) (P : String → Doc) :
    Nat → String → String → Pages → CrawlResult
  | 0, _, _, _ => CrawlResult.noFuel
  | fuel + 1, baseURL, currentURL, pages =>
    match parseURL currentURL, parseURL baseURL with
    | some currentURLObj, some baseURLObj =>
      if currentURLObj.hostname = baseURLObj.hostname then
        let normalizedURL := normKey currentURLObj
        if lookupCount pages normalizedURL > 0 then
          CrawlResult.ok (setCount pages normalizedURL (lookupCount pages normalizedURL + 1))
            [] [normalizedURL]
        else
          let pages1 := setCount pages normalizedURL 1
          match getHTML (F currentURL) with
          | Except.error _ => CrawlResult.ok pages1 [normalizedURL] [normalizedURL]
          | Except.ok none => CrawlResult.ok pages1 [normalizedURL] [normalizedURL]
          | Except.ok (some html) =>
            if html = "" then CrawlResult.ok pages1 [normalizedURL] [normalizedURL]
            else
              match crawlList (crawlPage F P fuel baseURL)
                      (getURLsFromHTML (P html) baseURL) pages1 with
              | CrawlResult.ok p2 f2 e2 =>
                CrawlResult.ok p2 (normalizedURL :: f2) (normalizedURL :: e2)
              | CrawlResult.urlErr => CrawlResult.urlErr
              | CrawlResult.noFuel => CrawlResult.noFuel
      else CrawlResult.ok pages [] []
    | _, _ => CrawlResult.urlErr

/-- The links `crawlPage` recurses into from a URL, as a function of the
oracles: empty unless the fetch succeeds with a non-empty HTML body, in
which case they are the extracted URLs resolved against the base. -/
def linkList (F : String → FetchResult) (P : String → Doc) (baseURL u : String) : List String :=
  match getHTML (F u) with
  | Except.ok (some html) => if html = "" then [] else getURLsFromHTML (P html) baseURL
  | _ => []

/-- A finite universe `Univ` of normalized keys is closed under the crawl's
link structure: any link of an in-scope page whose key is in `Univ` that
itself parses in scope has its key in `Univ`. -/
def LinkClosed (F : String → FetchResult) (P : String → Doc) (baseURL bh : String)
    (Univ : List String) : Prop :=
  ∀ u ru, parseURL u = some ru → ru.hostname = bh → normKey ru ∈ Univ →
    ∀ v ∈ linkList F P baseURL u, ∀ rv, parseURL v = some rv → rv.hostname = bh →
      normKey rv ∈ Univ

/-- A key is in scope for a base hostname when some parseable URL with
that hostname normalizes to it. -/
def InScopeKey (bh k : String) : Prop :=
  ∃ s r, parseURL s = some r ∧ r.hostname = bh ∧ normKey r = k

/-- Number of keys of the universe not yet present in the visited map with
a positive count: the termination measure of the crawl. -/
def unvisited (Univ : List String) (pages : Pages) : Nat :=
  (Univ.filter (fun k => lookupCount pages k == 0)).length

/-- A two-page site used in concrete checks: the base page links to
`/a` and back to itself; `/a` has no links. -/
def siteF : String → FetchResult :=
  fun u =>
    if u = "https://site.test" ∨ u = "https://site.test/" then
      FetchResult.response 200 (some "text/html") "<a href=/a><a href=/>"
    else if u = "https://site.test/a" then
      FetchResult.response 200 (some "text/html") "<p>leaf</p>"
    else FetchResult.response 404 (some "text/html") ""

/-- The parse oracle for the two-page site: the documents JSDOM would
produce for the two bodies of `siteF`. -/
def siteP : String → Doc :=
  fun html =>
    if html = "<a href=/a><a href=/>" then
      [Node.elem "a" [("href", "/a")] [], Node.elem "a" [("href", "/")] []]
    else [Node.elem "p" [] [Node.text "leaf"]]

example :
    crawlPage siteF siteP 4 "https://site.test" "https://site.test" [] =
    CrawlResult.ok [("site.test", 2), ("site.test/a", 1)]
      ["site.test", "site.test/a"]
      ["site.test", "site.test/a", "site.test"] := by decide

/-- All matching descendants of an element (`element.querySelectorAll`),
the element itself excluded. -/
def Node.queryAllDesc : Node → String → List Node
  | Node.elem _ _ c, tag => selectAllL tag c
  | Node.text _, _ => []

/-- The first-paragraph rule in the spec's words: the first `p` inside the
(first) `main` element when `main` exists and contains at least one `p`;
otherwise the first `p` anywhere in the document; otherwise the empty
string — in particular a `main` without any `p` falls through to the
document-wide search.  Results are trimmed. -/
def firstParagraphSpec (doc : Doc) : String :=
  match querySelector doc "main" with
  | some m =>
    match m.queryAllDesc "p" with
    | p :: _ => trimString (textContentN p)
    | [] =>
      match querySelectorAll doc "p" with
      | p :: _ => trimString (textContentN p)
      | [] => ""
  | none =>
    match querySelectorAll doc "p" with
    | p :: _ => trimString (textContentN p)
    | [] => ""

/-- The link extraction exactly as claim C5 states it: every anchor whose
`href` attribute is present and resolvable contributes its resolved URL,
in document order (no empty-string exception). -/
def urlsClaimedC5 (doc : Doc) (baseURL : String) : List String :=
  (querySelectorAll doc "a").filterMap
    (fun a => (a.getAttr "href").bind (fun href => resolveURL href baseURL))

/-- The image extraction exactly as claim C5 states it, for `img`/`src`. -/
def imgsClaimedC5 (doc : Doc) (baseURL : String) : List String :=
  (querySelectorAll doc "img").filterMap
    (fun img => (img.getAttr "src").bind (fun src => resolveURL src baseURL))

/-- The link extraction as amended: anchors lacking an `href`, or whose
`href` is the empty string, are skipped; unresolvable references are
skipped; document order of the rest is preserved. -/
def urlsAmendedC5 (doc : Doc) (baseURL : String) : List String :=
  (querySelectorAll doc "a").filterMap
    (fun a =>
      match a.getAttr "href" with
      | none => none
      | some href => if href = "" then none else resolveURL href baseURL)

/-- The image extraction as amended, for `img`/`src`. -/
def imgsAmendedC5 (doc : Doc) (baseURL : String) : List String :=
  (querySelectorAll doc "img").filterMap
    (fun img =>
      match img.getAttr "src" with
      | none => none
      | some src => if src = "" then none else resolveURL src baseURL)

theorem lookupCount_setCount_self (pages : Pages) (k : String) (n : Nat) :
    lookupCount (setCount pages k n) k = n := by
  induction pages with
  | nil => simp [setCount, lookupCount, List.find?]
  | cons kv rest ih =>
    by_cases hk : kv.1 = k
    · simp [setCount, hk, lookupCount, List.find?]
    · simp only [setCount, beq_iff_eq, hk, if_false, lookupCount, List.find?]
      have : (kv.1 == k) = false := by simp [hk]
      simp only [this, lookupCount] at ih ⊢
      exact ih

theorem lookupCount_setCount_ne (pages : Pages) (k k' : String) (n : Nat) (h : k' ≠ k) :
    lookupCount (setCount pages k n) k' = lookupCount pages k' := by
  have hkk : (k == k') = false := by simpa using Ne.symm h
  induction pages with
  | nil =>
    simp [setCount, lookupCount, List.find?, hkk]
  | cons kv rest ih =>
    by_cases hk : kv.1 = k
    · have h1 : (kv.1 == k) = true := by simp [hk]
      have h3 : (kv.1 == k') = false := by rw [hk]; exact hkk
      simp [setCount, h1, lookupCount, List.find?, hkk, h3]
    · have h1 : (kv.1 == k) = false := by simp [hk]
      simp only [setCount, h1, if_false, lookupCount, List.find?]
      cases hkv : (kv.1 == k') with
      | true => simp
      | false => simpa [lookupCount, hkv] using ih

theorem crawlList_inv (rec : String → Pages → CrawlResult) (Good : String → Prop)
    (Hrec : ∀ u pages p' f e, rec u pages = CrawlResult.ok p' f e →
      (∀ k, lookupCount p' k = lookupCount pages k + e.count k) ∧
      (∀ k, f.count k = if lookupCount pages k = 0 ∧ 0 < e.count k then 1 else 0) ∧
      (∀ k ∈ e, Good k)) :
    ∀ l pages p' f e, crawlList rec l pages = CrawlResult.ok p' f e →
      (∀ k, lookupCount p' k = lookupCount pages k + e.count k) ∧
      (∀ k, f.count k = if lookupCount pages k = 0 ∧ 0 < e.count k then 1 else 0) ∧
      (∀ k ∈ e, Good k) := by
  intro l
  induction l with
  | nil =>
    intro pages p' f e h
    simp only [crawlList] at h
    obtain ⟨rfl, rfl, rfl⟩ : pages = p' ∧ [] = f ∧ [] = e := by
      cases h; exact ⟨rfl, rfl, rfl⟩
    refine ⟨by simp, by simp, by simp⟩
  | cons u rest ih =>
    intro pages p' f e
    simp only [crawlList]
    split
    next p1 f1 e1 h1 =>
      split
      next p2 f2 e2 h2 =>
        intro h
        obtain ⟨rfl, rfl, rfl⟩ : p2 = p' ∧ f1 ++ f2 = f ∧ e1 ++ e2 = e := by
          cases h; exact ⟨rfl, rfl, rfl⟩
        obtain ⟨c1, fx1, g1⟩ := Hrec _ _ _ _ _ h1
        obtain ⟨c2, fx2, g2⟩ := ih _ _ _ _ h2
        refine ⟨?_, ?_, ?_⟩
        · intro k
          rw [List.count_append, c2 k, c1 k]
          omega
        · intro k
          rw [List.count_append, fx1 k, fx2 k, c1 k, List.count_append]
          split_ifs <;> omega
        · intro k hk
          rcases List.mem_append.mp hk with hk1 | hk2
          · exact g1 k hk1
          · exact g2 k hk2
      next h2 => intro h; cases h
      next h2 => intro h; cases h
    next h1 => intro h; cases h
    next h1 => intro h; cases h

theorem crawlPage_inv (F : String → FetchResult) (P : String → Doc) :
    ∀ fuel baseURL cur pages p' f e,
      crawlPage F P fuel baseURL cur pages = CrawlResult.ok p' f e →
      (∀ k, lookupCount p' k = lookupCount pages k + e.count k) ∧
      (∀ k, f.count k = if lookupCount pages k = 0 ∧ 0 < e.count k then 1 else 0) ∧
      (∀ rb, parseURL baseURL = some rb → ∀ k ∈ e, InScopeKey rb.hostname k) := by
  intro fuel
  induction fuel with
  | zero =>
    intro baseURL cur pages p' f e h
    simp [crawlPage] at h
  | succ fuel ih =>
    intro baseURL cur pages p' f e
    simp only [crawlPage]
    split
    next currentURLObj baseURLObj hc hb =>
      split
      next hhost =>
        split
        next hvis =>
          intro h
          obtain ⟨rfl, rfl, rfl⟩ :
              setCount pages (normKey currentURLObj)
                (lookupCount pages (normKey currentURLObj) + 1) = p' ∧
              ([] : List String) = f ∧ [normKey currentURLObj] = e := by
            cases h; exact ⟨rfl, rfl, rfl⟩
          refine ⟨?_, ?_, ?_⟩
          · intro k
            by_cases hk : k = normKey currentURLObj
            · subst hk
              rw [lookupCount_setCount_self]
              simp [List.count_cons]
            · rw [lookupCount_setCount_ne _ _ _ _ hk]
              simp [List.count_cons, hk]
          · intro k
            by_cases hk : k = normKey currentURLObj
            · subst hk
              have hnz : ¬ (lookupCount pages (normKey currentURLObj) = 0) := by omega
              simp [List.count_cons, hnz]
            · simp [List.count_cons, hk]
          · intro rb hrb k hk
            rw [hb] at hrb
            cases hrb
            have hk' : k = normKey currentURLObj := by simpa using hk
            subst hk'
            exact ⟨cur, currentURLObj, hc, hhost, rfl⟩
        next hvis =>
          have hvis0 : lookupCount pages (normKey currentURLObj) = 0 := by omega
          split
          next err heq =>
            intro h
            obtain ⟨rfl, rfl, rfl⟩ :
                setCount pages (normKey currentURLObj) 1 = p' ∧
                [normKey currentURLObj] = f ∧ [normKey currentURLObj] = e := by
              cases h; exact ⟨rfl, rfl, rfl⟩
            refine ⟨?_, ?_, ?_⟩
            · intro k
              by_cases hk : k = normKey currentURLObj
              · subst hk
                rw [lookupCount_setCount_self, hvis0]
                simp [List.count_cons]
              · rw [lookupCount_setCount_ne _ _ _ _ hk]
                simp [List.count_cons, hk]
            · intro k
              by_cases hk : k = normKey currentURLObj
              · subst hk
                simp [List.count_cons, hvis0]
              · simp [List.count_cons, hk]
            · intro rb hrb k hk
              rw [hb] at hrb
              cases hrb
              have hk' : k = normKey currentURLObj := by simpa using hk
              subst hk'
              exact ⟨cur, currentURLObj, hc, hhost, rfl⟩
          next heq =>
            intro h
            obtain ⟨rfl, rfl, rfl⟩ :
                setCount pages (normKey currentURLObj) 1 = p' ∧
                [normKey currentURLObj] = f ∧ [normKey currentURLObj] = e := by
              cases h; exact ⟨rfl, rfl, rfl⟩
            refine ⟨?_, ?_, ?_⟩
            · intro k
              by_cases hk : k = normKey currentURLObj
              · subst hk
                rw [lookupCount_setCount_self, hvis0]
                simp [List.count_cons]
              · rw [lookupCount_setCount_ne _ _ _ _ hk]
                simp [List.count_cons, hk]
            · intro k
              by_cases hk : k = normKey currentURLObj
              · subst hk
                simp [List.count_cons, hvis0]
              · simp [List.count_cons, hk]
            · intro rb hrb k hk
              rw [hb] at hrb
              cases hrb
              have hk' : k = normKey currentURLObj := by simpa using hk
              subst hk'
              exact ⟨cur, currentURLObj, hc, hhost, rfl⟩
          next html heq =>
            split
            next hempty =>
              intro h
              obtain ⟨rfl, rfl, rfl⟩ :
                  setCount pages (normKey currentURLObj) 1 = p' ∧
                  [normKey currentURLObj] = f ∧ [normKey currentURLObj] = e := by
                cases h; exact ⟨rfl, rfl, rfl⟩
              refine ⟨?_, ?_, ?_⟩
              · intro k
                by_cases hk : k = normKey currentURLObj
                · subst hk
                  rw [lookupCount_setCount_self, hvis0]
                  simp [List.count_cons]
                · rw [lookupCount_setCount_ne _ _ _ _ hk]
                  simp [List.count_cons, hk]
              · intro k
                by_cases hk : k = normKey currentURLObj
                · subst hk
                  simp [List.count_cons, hvis0]
                · simp [List.count_cons, hk]
              · intro rb hrb k hk
                rw [hb] at hrb
                cases hrb
                have hk' : k = normKey currentURLObj := by simpa using hk
                subst hk'
                exact ⟨cur, currentURLObj, hc, hhost, rfl⟩
            next hempty =>
              split
              next p2 f2 e2 hlist =>
                intro h
                obtain ⟨rfl, rfl, rfl⟩ :
                    p2 = p' ∧ normKey currentURLObj :: f2 = f ∧
                    normKey currentURLObj :: e2 = e := by
                  cases h; exact ⟨rfl, rfl, rfl⟩
                have Hrec : ∀ u pg pp ff ee,
                    crawlPage F P fuel baseURL u pg = CrawlResult.ok pp ff ee →
                    (∀ k, lookupCount pp k = lookupCount pg k + ee.count k) ∧
                    (∀ k, ff.count k =
                      if lookupCount pg k = 0 ∧ 0 < ee.count k then 1 else 0) ∧
                    (∀ k ∈ ee, InScopeKey baseURLObj.hostname k) := by
                  intro u pg pp ff ee hrec
                  obtain ⟨hc1, hc2, hc3⟩ := ih baseURL u pg pp ff ee hrec
                  exact ⟨hc1, hc2, hc3 baseURLObj hb⟩
                obtain ⟨c2, fx2, g2⟩ :=
                  crawlList_inv (crawlPage F P fuel baseURL)
                    (InScopeKey baseURLObj.hostname) Hrec _ _ _ _ _ hlist
                refine ⟨?_, ?_, ?_⟩
                · intro k
                  have := c2 k
                  by_cases hk : k = normKey currentURLObj
                  · subst hk
                    rw [lookupCount_setCount_self] at this
                    rw [this, hvis0]
                    simp [List.count_cons]
                    omega
                  · rw [lookupCount_setCount_ne _ _ _ _ hk] at this
                    rw [this]
                    simp [List.count_cons, hk]
                · intro k
                  have hf2 := fx2 k
                  by_cases hk : k = normKey currentURLObj
                  · subst hk
                    rw [lookupCount_setCount_self] at hf2
                    have hz : ¬ ((1 : Nat) = 0 ∧
                        0 < e2.count (normKey currentURLObj)) := by omega
                    rw [if_neg hz] at hf2
                    simp [List.count_cons, hf2, hvis0]
                  · rw [lookupCount_setCount_ne _ _ _ _ hk] at hf2
                    have hkne : normKey currentURLObj ≠ k := fun hh => hk hh.symm
                    simp [List.count_cons, hkne, hf2]
                · intro rb hrb k hk
                  rw [hb] at hrb
                  cases hrb
                  rcases List.mem_cons.mp hk with hk1 | hk2
                  · subst hk1
                    exact ⟨cur, currentURLObj, hc, hhost, rfl⟩
                  · exact g2 k hk2
              next hlist => intro h; cases h
              next hlist => intro h; cases h
      next hhost =>
        intro h
        obtain ⟨rfl, rfl, rfl⟩ : pages = p' ∧ ([] : List String) = f ∧ ([] : List String) = e := by
          cases h; exact ⟨rfl, rfl, rfl⟩
        exact ⟨by simp, by simp, by simp⟩
    next x y hxy =>
      intro h
      cases h

theorem lowerChar_ne_slash (c : Char) (h : c ≠ '/') : lowerChar c ≠ '/' := by
  intro heq
  unfold lowerChar at heq
  split at heq <;> first | exact h heq | exact absurd heq (by decide)

theorem parseURL_shape (s : String) (r : URLRec) (h : parseURL s = some r) :
    (∀ c ∈ r.host.data, c ≠ '/') ∧ r.pathname.data.head? = some '/' := by
  simp only [parseURL, parseURLChars] at h
  split at h
  · cases h
  · split at h
    next rest heq =>
      split at h
      · cases h
      · cases h
        constructor
        · intro c hc
          obtain ⟨c0, hc0, rfl⟩ := List.mem_map.mp hc
          have hw := List.mem_takeWhile_imp hc0
          simp only [isAuthChar, Bool.and_eq_true, bne_iff_ne, ne_eq] at hw
          exact lowerChar_ne_slash c0 hw.1.1
        · by_cases hp : (rest.dropWhile isAuthChar).takeWhile isPathChar = []
          · simp [hp]
          · simp only [hp, if_false]
            cases ha : rest.dropWhile isAuthChar with
            | nil => rw [ha] at hp; simp at hp
            | cons a t =>
              have h5 := List.head?_dropWhile_not isAuthChar rest
              rw [ha] at h5
              simp only [List.head?_cons] at h5
              by_cases h6 : isPathChar a
              · rw [List.takeWhile_cons_of_pos h6]
                simp only [List.head?_cons, Option.some.injEq]
                simp only [isAuthChar, Bool.and_eq_false_iff, bne_eq_false_iff_eq] at h5
                simp only [isPathChar, Bool.and_eq_true, bne_iff_ne, ne_eq] at h6
                rcases h5 with (h5 | h5) | h5
                · exact h5
                · exact absurd h5 h6.1
                · exact absurd h5 h6.2
              · rw [ha, List.takeWhile_cons_of_neg h6] at hp
                simp at hp
    next heq => cases h

theorem stripSlash_decomp (A Pp : List Char) (hP : Pp.head? = some '/') :
    ∃ Q, (if (A ++ Pp).getLast? = some '/' then (A ++ Pp).dropLast else A ++ Pp) = A ++ Q ∧
      (Q = [] ∨ Q.head? = some '/') := by
  cases Pp with
  | nil => cases hP
  | cons a t =>
    have ha : a = '/' := by simpa using hP
    subst ha
    by_cases hl : (A ++ '/' :: t).getLast? = some '/'
    · rw [if_pos hl]
      rw [List.dropLast_append_of_ne_nil _ (by simp : ('/' :: t : List Char) ≠ [])]
      refine ⟨('/' :: t).dropLast, rfl, ?_⟩
      cases t with
      | nil => exact Or.inl rfl
      | cons b t' => exact Or.inr (by simp)
    · rw [if_neg hl]
      exact ⟨'/' :: t, rfl, Or.inr rfl⟩

theorem takeWhile_notSlash (A Q : List Char) (hA : ∀ c ∈ A, c ≠ '/')
    (hQ : Q = [] ∨ Q.head? = some '/') :
    (A ++ Q).takeWhile (fun c => c != '/') = A := by
  induction A with
  | nil =>
    rcases hQ with rfl | hq
    · simp
    · cases Q with
      | nil => simp
      | cons q t =>
        have hq' : q = '/' := by simpa using hq
        subst hq'
        simp
  | cons a A' ih =>
    have haa : a ≠ '/' := hA a (List.mem_cons_self a A')
    have : ((a != '/') : Bool) = true := by simpa using haa
    simp only [List.cons_append, List.takeWhile_cons, this, if_pos]
    rw [ih (fun c hc => hA c (List.mem_cons_of_mem a hc))]

theorem hostname_of_normKey (s1 s2 : String) (r1 r2 : URLRec)
    (h1 : parseURL s1 = some r1) (h2 : parseURL s2 = some r2)
    (hk : normKey r1 = normKey r2) : r1.hostname = r2.hostname := by
  obtain ⟨hA1, hP1⟩ := parseURL_shape s1 r1 h1
  obtain ⟨hA2, hP2⟩ := parseURL_shape s2 r2 h2
  obtain ⟨Q1, hd1, hq1⟩ := stripSlash_decomp r1.host.data r1.pathname.data hP1
  obtain ⟨Q2, hd2, hq2⟩ := stripSlash_decomp r2.host.data r2.pathname.data hP2
  have e1 : (normKey r1).data = r1.host.data ++ Q1 := by
    simpa [normKey] using congrArg String.data (congrArg String.mk hd1)
  have e2 : (normKey r2).data = r2.host.data ++ Q2 := by
    simpa [normKey] using congrArg String.data (congrArg String.mk hd2)
  have hdata : r1.host.data ++ Q1 = r2.host.data ++ Q2 := by
    rw [← e1, ← e2, hk]
  have t1 := takeWhile_notSlash r1.host.data Q1 hA1 hq1
  have t2 := takeWhile_notSlash r2.host.data Q2 hA2 hq2
  rw [hdata, t2] at t1
  unfold URLRec.hostname
  rw [t1]

theorem length_filter_le_of_imp (p q : String → Bool) (l : List String)
    (h : ∀ a ∈ l, q a = true → p a = true) :
    (l.filter q).length ≤ (l.filter p).length := by
  induction l with
  | nil => simp
  | cons a l' ih =>
    have ih' := ih (fun b hb => h b (List.mem_cons_of_mem a hb))
    cases hq : q a with
    | true =>
      have hp := h a (List.mem_cons_self a l') hq
      simp [List.filter_cons, hq, hp]
      omega
    | false =>
      cases hp : p a with
      | true => simp [List.filter_cons, hq, hp]; omega
      | false => simp [List.filter_cons, hq, hp]; omega

theorem length_filter_lt_of_flip (p q : String → Bool) (l : List String) (x : String)
    (hx : x ∈ l) (hpx : p x = true) (hqx : q x = false)
    (h : ∀ a ∈ l, q a = true → p a = true) :
    (l.filter q).length < (l.filter p).length := by
  induction l with
  | nil => cases hx
  | cons a l' ih =>
    have hle := length_filter_le_of_imp p q l' (fun b hb => h b (List.mem_cons_of_mem a hb))
    rcases List.mem_cons.mp hx with rfl | hx'
    · simp [List.filter_cons, hpx, hqx]
      omega
    · have ih' := ih hx' (fun b hb => h b (List.mem_cons_of_mem a hb))
      cases hq : q a with
      | true =>
        have hp := h a (List.mem_cons_self a l') hq
        simp [List.filter_cons, hq, hp]
        omega
      | false =>
        cases hp : p a with
        | true => simp [List.filter_cons, hq, hp]; omega
        | false => simp [List.filter_cons, hq, hp]; omega

theorem unvisited_mono (Univ : List String) (p1 p2 : Pages)
    (h : ∀ k, lookupCount p1 k ≤ lookupCount p2 k) :
    unvisited Univ p2 ≤ unvisited Univ p1 := by
  apply length_filter_le_of_imp
  intro a _ hq
  have hq' : lookupCount p2 a = 0 := by simpa using hq
  have h2 := h a
  have h3 : lookupCount p1 a = 0 := by omega
  simp [h3]

theorem unvisited_strict (Univ : List String) (pages : Pages) (key : String)
    (hk : key ∈ Univ) (h0 : lookupCount pages key = 0) :
    unvisited Univ (setCount pages key 1) < unvisited Univ pages := by
  apply length_filter_lt_of_flip _ _ _ key hk
  · simp [h0]
  · rw [lookupCount_setCount_self]
    simp
  · intro a _ hq
    have hq' : lookupCount (setCount pages key 1) a = 0 := by simpa using hq
    by_cases hak : a = key
    · subst hak
      rw [lookupCount_setCount_self] at hq'
      cases hq'
    · rw [lookupCount_setCount_ne _ _ _ _ hak] at hq'
      simpa using hq'

theorem crawlList_noFuel (rec : String → Pages → CrawlResult) (Univ : List String)
    (Good : String → Prop) (n : Nat)
    (Hne : ∀ u p, Good u → unvisited Univ p < n → rec u p ≠ CrawlResult.noFuel)
    (Hmono : ∀ u p p' f e, rec u p = CrawlResult.ok p' f e →
      ∀ k, lookupCount p k ≤ lookupCount p' k) :
    ∀ l pages, (∀ u ∈ l, Good u) → unvisited Univ pages < n →
      crawlList rec l pages ≠ CrawlResult.noFuel := by
  intro l
  induction l with
  | nil => intro pages _ _; simp [crawlList]
  | cons u rest ih =>
    intro pages hg hm
    simp only [crawlList]
    split
    next p1 f1 e1 h1 =>
      have hm1 : unvisited Univ p1 ≤ unvisited Univ pages :=
        unvisited_mono Univ pages p1 (Hmono u pages p1 f1 e1 h1)
      have hrest := ih p1 (fun v hv => hg v (List.mem_cons_of_mem u hv)) (by omega)
      split
      next p2 f2 e2 h2 => simp
      next h2 => simp
      next h2 => exact absurd h2 hrest
    next h1 => simp
    next h1 => exact absurd h1 (Hne u pages (hg u (List.mem_cons_self u rest)) hm)

theorem crawlPage_noFuel (F : String → FetchResult) (P : String → Doc)
    (baseURL : String) (rb : URLRec) (Univ : List String)
    (hb : parseURL baseURL = some rb)
    (hclosed : LinkClosed F P baseURL rb.hostname Univ) :
    ∀ fuel cur pages,
      (∀ rc, parseURL cur = some rc → rc.hostname = rb.hostname → normKey rc ∈ Univ) →
      unvisited Univ pages < fuel →
      crawlPage F P fuel baseURL cur pages ≠ CrawlResult.noFuel := by
  intro fuel
  induction fuel with
  | zero =>
    intro cur pages _ hm
    exact absurd hm (by omega)
  | succ fuel ih =>
    intro cur pages hcur hm
    simp only [crawlPage]
    split
    next rc rb0 hc hb0 =>
      have hrb : rb0 = rb := by
        rw [hb] at hb0
        exact (Option.some.inj hb0).symm
      subst rb0
      split
      next hhost =>
        split
        next hvis => simp
        next hvis =>
          split
          next err heq => simp
          next heq => simp
          next html heq =>
            split
            next hempty => simp
            next hempty =>
              have hkey : normKey rc ∈ Univ := hcur rc hc hhost
              have hvis0 : lookupCount pages (normKey rc) = 0 := by omega
              have hlt : unvisited Univ (setCount pages (normKey rc) 1) < fuel := by
                have := unvisited_strict Univ pages (normKey rc) hkey hvis0
                omega
              have hlinks : ∀ v ∈ getURLsFromHTML (P html) baseURL,
                  (∀ rv, parseURL v = some rv → rv.hostname = rb.hostname →
                    normKey rv ∈ Univ) := by
                intro v hv rv hrv hrvh
                refine hclosed cur rc hc hhost hkey v ?_ rv hrv hrvh
                unfold linkList
                rw [heq]
                simp only [hempty, if_false]
                exact hv
              have hnf := crawlList_noFuel (crawlPage F P fuel baseURL) Univ
                (fun u => ∀ ru, parseURL u = some ru → ru.hostname = rb.hostname →
                  normKey ru ∈ Univ)
                fuel
                (fun u p hg hlt2 => ih u p hg hlt2)
                (fun u p p' f e hok k => by
                  have := (crawlPage_inv F P fuel baseURL u p p' f e hok).1 k
                  omega)
                (getURLsFromHTML (P html) baseURL) (setCount pages (normKey rc) 1)
                hlinks hlt
              split
              next p2 f2 e2 hcl => simp
              next hcl => simp
              next hcl => exact absurd hcl hnf
      next hhost => simp
    next x y hxy => simp

theorem selectAllL_append (tag : String) (l₁ l₂ : List Node) :
    selectAllL tag (l₁ ++ l₂) = selectAllL tag l₁ ++ selectAllL tag l₂ := by
  induction l₁ with
  | nil => simp [selectAllL]
  | cons n rest ih => simp [selectAllL, ih]

theorem queryDesc_eq_head (n : Node) (tag : String) :
    n.queryDesc tag = (n.queryAllDesc tag).head? := by
  cases n <;> rfl

theorem foldl_collect (g : Node → Option String) (l : List Node) (acc : List String) :
    List.foldl
      (fun urls a =>
        match g a with
        | some u => urls ++ [u]
        | none => urls) acc l = acc ++ l.filterMap g := by
  induction l generalizing acc with
  | nil => simp
  | cons a l' ih =>
    cases hg : g a with
    | none => simp [List.foldl_cons, hg, List.filterMap_cons, ih]
    | some u => simp [List.foldl_cons, hg, List.filterMap_cons, ih]

theorem getURLs_eq (doc : Doc) (baseURL : String) :
    getURLsFromHTML doc baseURL = urlsAmendedC5 doc baseURL := by
  unfold getURLsFromHTML urlsAmendedC5
  have hbody : (fun (urls : List String) (a : Node) =>
      match a.getAttr "href" with
      | none => urls
      | some href =>
        if href = "" then urls
        else
          match resolveURL href baseURL with
          | some u => urls ++ [u]
          | none => urls) =
    (fun (urls : List String) (a : Node) =>
      match
        (match a.getAttr "href" with
         | none => none
         | some href => if href = "" then none else resolveURL href baseURL) with
      | some u => urls ++ [u]
      | none => urls) := by
    funext urls a
    cases ha : a.getAttr "href" with
    | none => simp
    | some href =>
      by_cases he : href = ""
      · simp [he]
      · cases hr : resolveURL href baseURL with
        | none => simp [he, hr]
        | some u => simp [he, hr]
  rw [hbody, foldl_collect]
  simp

theorem getImages_eq (doc : Doc) (baseURL : String) :
    getImagesFromHTML doc baseURL = imgsAmendedC5 doc baseURL := by
  unfold getImagesFromHTML imgsAmendedC5
  have hbody : (fun (imageURLs : List String) (img : Node) =>
      match img.getAttr "src" with
      | none => imageURLs
      | some src =>
        if src = "" then imageURLs
        else
          match resolveURL src baseURL with
          | some u => imageURLs ++ [u]
          | none => imageURLs) =
    (fun (imageURLs : List String) (img : Node) =>
      match
        (match img.getAttr "src" with
         | none => none
         | some src => if src = "" then none else resolveURL src baseURL) with
      | some u => imageURLs ++ [u]
      | none => imageURLs) := by
    funext imageURLs img
    cases ha : img.getAttr "src" with
    | none => simp
    | some src =>
      by_cases he : src = ""
      · simp [he]
      · cases hr : resolveURL src baseURL with
        | none => simp [he, hr]
        | some u => simp [he, hr]
  rw [hbody, foldl_collect]
  simp

/-- Claim C1: when the normalized key of `currentURL` is already in the
visited map with a positive count, `crawlPage` increments that count by
one and returns at once — empty fetch log, a single encounter, no
recursion; and over any completed crawl, a key first seen with count 0
ends with count equal to its number of encounters, with exactly one fetch
for a key that is encountered at all. -/
theorem claimC1 (F : String → FetchResult) (P : String → Doc)
    (baseURL currentURL : String) (rc rb : URLRec)
    (hc : parseURL currentURL = some rc) (hb : parseURL baseURL = some rb)
    (hhost : rc.hostname = rb.hostname) :
    (∀ fuel pages, 0 < lookupCount pages (normKey rc) →
      crawlPage F P (fuel + 1) baseURL currentURL pages =
        CrawlResult.ok
          (setCount pages (normKey rc) (lookupCount pages (normKey rc) + 1))
          [] [normKey rc]) ∧
    (∀ fuel cur2 pages p' f e,
      crawlPage F P fuel baseURL cur2 pages = CrawlResult.ok p' f e →
      ∀ k, lookupCount pages k = 0 →
        lookupCount p' k = e.count k ∧ (0 < e.count k → f.count k = 1)) := by
  constructor
  · intro fuel pages hv
    simp [crawlPage, hc, hb, hhost, hv]
  · intro fuel cur2 pages p' f e hok k hk0
    obtain ⟨c, fx, _⟩ := crawlPage_inv F P fuel baseURL cur2 pages p' f e hok
    constructor
    · have := c k
      rw [hk0, Nat.zero_add] at this
      exact this
    · intro hpos
      have := fx k
      rw [if_pos ⟨hk0, hpos⟩] at this
      exact this

/-- Witness for C1 at concrete inputs: a revisit of `https://h.co/x` with
count 2 becomes count 3 with no fetch, and on the two-page site the final
count of the base key equals its three encounters while it was fetched
exactly once. -/
theorem claimC1_witness :
    crawlPage (fun _ => FetchResult.response 404 none "") (fun _ => ([] : Doc)) 3
      "https://h.co" "https://h.co/x" [("h.co/x", 2)] =
      CrawlResult.ok [("h.co/x", 3)] [] ["h.co/x"] ∧
    lookupCount [("site.test", 2), ("site.test/a", 1)] "site.test" =
      List.count "site.test" ["site.test", "site.test/a", "site.test"] ∧
    List.count "site.test" ["site.test", "site.test/a"] = 1 := by
  have h := claimC1 (fun _ => FetchResult.response 404 none "") (fun _ => ([] : Doc))
    "https://h.co" "https://h.co/x"
    { scheme := "https", host := "h.co", pathname := "/x", search := "", hash := "" }
    { scheme := "https", host := "h.co", pathname := "/", search := "", hash := "" }
    (by decide) (by decide) (by decide)
  have h2 := claimC1 siteF siteP "https://site.test" "https://site.test"
    { scheme := "https", host := "site.test", pathname := "/", search := "", hash := "" }
    { scheme := "https", host := "site.test", pathname := "/", search := "", hash := "" }
    (by decide) (by decide) (by decide)
  obtain ⟨w1, w2⟩ := h2.2 4 "https://site.test" []
    [("site.test", 2), ("site.test/a", 1)]
    ["site.test", "site.test/a"]
    ["site.test", "site.test/a", "site.test"]
    (by decide) "site.test" (by decide)
  exact ⟨h.1 2 [("h.co/x", 2)] (by decide), w1, w2 (by decide)⟩

/-- Claim C2: when the hostnames of `currentURL` and `baseURL` differ,
`crawlPage` returns the visited map unchanged with no fetch and no
encounter; consequently, over any completed crawl from that base, the
normalized key of an out-of-scope URL keeps exactly the count it started
with (in particular it is never added to an initially empty map). -/
theorem claimC2 (F : String → FetchResult) (P : String → Doc)
    (baseURL currentURL : String) (rc rb : URLRec)
    (hc : parseURL currentURL = some rc) (hb : parseURL baseURL = some rb)
    (hhost : rc.hostname ≠ rb.hostname) :
    (∀ fuel pages,
      crawlPage F P (fuel + 1) baseURL currentURL pages = CrawlResult.ok pages [] []) ∧
    (∀ fuel cur2 pages p' f e,
      crawlPage F P fuel baseURL cur2 pages = CrawlResult.ok p' f e →
      lookupCount p' (normKey rc) = lookupCount pages (normKey rc)) := by
  constructor
  · intro fuel pages
    simp [crawlPage, hc, hb, hhost]
  · intro fuel cur2 pages p' f e hok
    obtain ⟨c, _, g⟩ := crawlPage_inv F P fuel baseURL cur2 pages p' f e hok
    have hcount := c (normKey rc)
    have hzero : e.count (normKey rc) = 0 := by
      rw [List.count_eq_zero]
      intro hmem
      obtain ⟨s, r, hs, hrh, hrk⟩ := g rb hb (normKey rc) hmem
      have hsame := hostname_of_normKey currentURL s rc r hc hs hrk.symm
      exact hhost (hsame.trans hrh)
    omega

/-- Witness for C2 at concrete inputs: visiting `https://other.co/x` from
base `https://h.co` leaves the map untouched with empty logs, and the key
of that out-of-scope URL is absent from the completed two-page-site crawl
result exactly as it was absent initially. -/
theorem claimC2_witness :
    crawlPage (fun _ => FetchResult.response 404 none "") (fun _ => ([] : Doc)) 1
      "https://h.co" "https://other.co/x" [("z", 1)] =
      CrawlResult.ok [("z", 1)] [] [] ∧
    lookupCount [("site.test", 2), ("site.test/a", 1)] "other.co/x" =
      lookupCount [] "other.co/x" := by
  have h := claimC2 (fun _ => FetchResult.response 404 none "") (fun _ => ([] : Doc))
    "https://h.co" "https://other.co/x"
    { scheme := "https", host := "other.co", pathname := "/x", search := "", hash := "" }
    { scheme := "https", host := "h.co", pathname := "/", search := "", hash := "" }
    (by decide) (by decide) (by decide)
  have h2 := claimC2 siteF siteP "https://site.test" "https://other.co/x"
    { scheme := "https", host := "other.co", pathname := "/x", search := "", hash := "" }
    { scheme := "https", host := "site.test", pathname := "/", search := "", hash := "" }
    (by decide) (by decide) (by decide)
  refine ⟨h.1 0 [("z", 1)], ?_⟩
  exact h2.2 4 "https://site.test" [] [("site.test", 2), ("site.test/a", 1)]
    ["site.test", "site.test/a"] ["site.test", "site.test/a", "site.test"] (by decide)

/-- Claim C4: on a first visit (key absent), `crawlPage` records the key
with count 1 before fetching, so when the fetch yields "no page" (bad
status, missing or non-HTML content type, signalled as `Except.ok none`)
or raises an error, the call returns with that count of 1 in place, the
fetch attempt logged, and no recursion from the node. -/
theorem claimC4 (F : String → FetchResult) (P : String → Doc)
    (baseURL currentURL : String) (rc rb : URLRec) (fuel : Nat) (pages : Pages)
    (hc : parseURL currentURL = some rc) (hb : parseURL baseURL = some rb)
    (hhost : rc.hostname = rb.hostname)
    (h0 : lookupCount pages (normKey rc) = 0)
    (hfail : (∃ msg, getHTML (F currentURL) = Except.error msg) ∨
      getHTML (F currentURL) = Except.ok none) :
    crawlPage F P (fuel + 1) baseURL currentURL pages =
      CrawlResult.ok (setCount pages (normKey rc) 1) [normKey rc] [normKey rc] := by
  rcases hfail with ⟨msg, hm⟩ | hm <;>
    simp [crawlPage, hc, hb, hhost, h0, hm]

/-- Witness for C4 at concrete inputs: a 404 response and a network error
both leave the fresh count of 1 in the returned map, with one logged fetch
and no recursion. -/
theorem claimC4_witness :
    crawlPage (fun _ => FetchResult.response 404 none "") (fun _ => ([] : Doc)) 1
      "https://h.co" "https://h.co" [] =
      CrawlResult.ok [("h.co", 1)] ["h.co"] ["h.co"] ∧
    crawlPage (fun _ => FetchResult.networkError "refused") (fun _ => ([] : Doc)) 1
      "https://h.co" "https://h.co" [] =
      CrawlResult.ok [("h.co", 1)] ["h.co"] ["h.co"] := by
  constructor
  · exact claimC4 (fun _ => FetchResult.response 404 none "") (fun _ => ([] : Doc))
      "https://h.co" "https://h.co"
      { scheme := "https", host := "h.co", pathname := "/", search := "", hash := "" }
      { scheme := "https", host := "h.co", pathname := "/", search := "", hash := "" }
      0 [] (by decide) (by decide) (by decide) (by decide) (Or.inr rfl)
  · exact claimC4 (fun _ => FetchResult.networkError "refused") (fun _ => ([] : Doc))
      "https://h.co" "https://h.co"
      { scheme := "https", host := "h.co", pathname := "/", search := "", hash := "" }
      { scheme := "https", host := "h.co", pathname := "/", search := "", hash := "" }
      0 [] (by decide) (by decide) (by decide) (by decide)
      (Or.inl ⟨"Got Network error: refused", rfl⟩)

/-- Claim C9: when the normalized in-scope keys reachable through the
link structure fit in a finite universe `Univ` and the fuel (recursion
depth budget) exceeds its unvisited size, `crawlPage(baseURL)` does not
run out of fuel — the visit guard bounds recursion depth by the number of
distinct in-scope keys — and in any completed crawl every key is fetched
at most once. -/
theorem claimC9 (F : String → FetchResult) (P : String → Doc)
    (baseURL : String) (rb : URLRec) (Univ : List String) (fuel : Nat)
    (hb : parseURL baseURL = some rb)
    (hclosed : LinkClosed F P baseURL rb.hostname Univ)
    (hbase : normKey rb ∈ Univ)
    (hfuel : unvisited Univ [] < fuel) :
    crawlPage F P fuel baseURL baseURL [] ≠ CrawlResult.noFuel ∧
    (∀ p' f e, crawlPage F P fuel baseURL baseURL [] = CrawlResult.ok p' f e →
      ∀ k, f.count k ≤ 1) := by
  constructor
  · exact crawlPage_noFuel F P baseURL rb Univ hb hclosed fuel baseURL []
      (fun rc hrc _ => by
        rw [hb] at hrc
        cases hrc
        exact hbase) hfuel
  · intro p' f e hok k
    have := (crawlPage_inv F P fuel baseURL baseURL [] p' f e hok).2.1 k
    rw [this]
    split <;> omega

/-- Witness for C9 at concrete inputs: with a fetcher that answers 404
everywhere, universe `["h.co"]` and fuel 2, the crawl of `https://h.co`
does not exhaust its fuel, and in its completed run the key was fetched
once. -/
theorem claimC9_witness :
    crawlPage (fun _ => FetchResult.response 404 none "") (fun _ => ([] : Doc)) 2
      "https://h.co" "https://h.co" [] ≠ CrawlResult.noFuel ∧
    List.count "h.co" ["h.co"] ≤ 1 := by
  have h := claimC9 (fun _ => FetchResult.response 404 none "") (fun _ => ([] : Doc))
    "https://h.co"
    { scheme := "https", host := "h.co", pathname := "/", search := "", hash := "" }
    ["h.co"] 2 (by decide)
    (by
      intro u ru _ _ _ v hv
      exact absurd hv (by simp [linkList, getHTML]))
    (by decide) (by decide)
  exact ⟨h.1, h.2 [("h.co", 1)] ["h.co"] ["h.co"] (by decide) "h.co"⟩

/-- Claim C8: `getHTML` yields an error exactly when the fetch fails at
the network level; a status of 400 or more, a missing content type, or a
content type not containing `text/html` each yield "no page"
(`Except.ok none`) without an error, and a successful HTML response
yields the body. -/
theorem claimC8 : ∀ r : FetchResult,
    ((∃ msg, getHTML r = Except.error msg) ↔ (∃ m, r = FetchResult.networkError m)) ∧
    (∀ status ct body, r = FetchResult.response status ct body →
      (400 ≤ status → getHTML r = Except.ok none) ∧
      (ct = none → getHTML r = Except.ok none) ∧
      (∀ c, ct = some c → containsSubstr c "text/html" = false →
        getHTML r = Except.ok none) ∧
      (status ≤ 399 → ∀ c, ct = some c → containsSubstr c "text/html" = true →
        getHTML r = Except.ok (some body))) := by
  intro r
  cases r with
  | networkError m =>
    refine ⟨⟨fun _ => ⟨m, rfl⟩, fun _ => ⟨"Got Network error: " ++ m, rfl⟩⟩, ?_⟩
    intro status ct body h
    cases h
  | response st ct b =>
    constructor
    · constructor
      · rintro ⟨msg, hmsg⟩
        exfalso
        simp only [getHTML] at hmsg
        split at hmsg
        · cases hmsg
        · split at hmsg
          · cases hmsg
          · split at hmsg <;> cases hmsg
      · rintro ⟨m, hm⟩
        cases hm
    · intro status ct' body h
      cases h
      refine ⟨?_, ?_, ?_, ?_⟩
      · intro h400
        simp [getHTML, show st > 399 by omega]
      · intro hct
        subst hct
        by_cases h399 : st > 399 <;> simp [getHTML, h399]
      · intro c hc hcontains
        subst hc
        by_cases h399 : st > 399 <;> simp [getHTML, h399, hcontains]
      · intro h399 c hc hcontains
        subst hc
        simp [getHTML, show ¬ (st > 399) by omega, hcontains]

/-- Witness for C8 at concrete inputs: a 404 and a JSON response give
"no page", a network error raises, and a `text/html` 200 returns the
body. -/
theorem claimC8_witness :
    getHTML (FetchResult.response 404 (some "text/html") "x") = Except.ok none ∧
    getHTML (FetchResult.response 200 (some "application/json") "x") = Except.ok none ∧
    getHTML (FetchResult.response 200 none "x") = Except.ok none ∧
    getHTML (FetchResult.response 200 (some "text/html; charset=utf-8") "<p>hi</p>") =
      Except.ok (some "<p>hi</p>") ∧
    (∃ msg, getHTML (FetchResult.networkError "refused") = Except.error msg) := by
  refine ⟨?_, ?_, ?_, ?_, ?_⟩
  · exact ((claimC8 _).2 404 (some "text/html") "x" rfl).1 (by omega)
  · exact ((claimC8 _).2 200 (some "application/json") "x" rfl).2.2.1
      "application/json" rfl (by decide)
  · exact ((claimC8 _).2 200 none "x" rfl).2.1 rfl
  · exact ((claimC8 _).2 200 (some "text/html; charset=utf-8") "<p>hi</p>" rfl).2.2.2
      (by omega) "text/html; charset=utf-8" rfl (by decide)
  · exact (claimC8 (FetchResult.networkError "refused")).1.mpr ⟨"refused", rfl⟩

/-- Claim C6: the four spec examples all normalize to `h.co/p`; in
general the key is `host + pathname` — scheme stripped, host lowercased
but not the path (witnessed by `/P` and by `H.CO`), and at most one
trailing slash removed (witnessed by the double slash). -/
theorem claimC6 :
    normalizeURL "https://h.co/p" = some "h.co/p" ∧
    normalizeURL "https://h.co/p/" = some "h.co/p" ∧
    normalizeURL "https://H.CO/p" = some "h.co/p" ∧
    normalizeURL "http://h.co/p" = some "h.co/p" ∧
    normalizeURL "https://h.co/P" = some "h.co/P" ∧
    normalizeURL "https://h.co/p//" = some "h.co/p/" ∧
    (∀ s u, parseURL s = some u →
      normalizeURL s = some (normKey u) ∧
      ((normKey u).data = u.host.data ++ u.pathname.data ∨
        (normKey u).data ++ ['/'] = u.host.data ++ u.pathname.data)) := by
  refine ⟨by decide, by decide, by decide, by decide, by decide, by decide, ?_⟩
  intro s u hu
  refine ⟨by simp [normalizeURL, hu], ?_⟩
  have hdata : (normKey u).data =
      (if (u.host.data ++ u.pathname.data).getLast? = some '/' then
        (u.host.data ++ u.pathname.data).dropLast
      else u.host.data ++ u.pathname.data) := rfl
  by_cases hl : (u.host.data ++ u.pathname.data).getLast? = some '/'
  · right
    obtain ⟨ys, hys⟩ := List.getLast?_eq_some_iff.mp hl
    rw [hdata, if_pos hl, hys, List.dropLast_concat]
  · left
    rw [hdata, if_neg hl]

/-- Witness for C6's general clause at a concrete input: the key of
`https://h.co/p?a=1` is its host and pathname with the query playing no
part. -/
theorem claimC6_witness :
    normalizeURL "https://h.co/p?a=1" = some "h.co/p" ∧
    ("h.co/p".data = "h.co".data ++ "/p".data ∨
      "h.co/p".data ++ ['/'] = "h.co".data ++ "/p".data) := by
  obtain ⟨w1, w2⟩ := claimC6.2.2.2.2.2.2 "https://h.co/p?a=1"
    { scheme := "https", host := "h.co", pathname := "/p", search := "?a=1", hash := "" }
    (by decide)
  exact ⟨w1, w2⟩

/-- Claim C7 fails on the code: two URLs that differ only in their query
strings (or only in a fragment) produce the same normalized key, because
`normalizeURL` keeps only `host + pathname`; nothing of the query or
fragment survives in the key. -/
theorem claimC7_counterexample :
    "https://h.co/p?a=1" ≠ "https://h.co/p?b=2" ∧
    normalizeURL "https://h.co/p?a=1" = normalizeURL "https://h.co/p?b=2" ∧
    normalizeURL "https://h.co/p?a=1" = some "h.co/p" ∧
    normalizeURL "https://h.co/p#frag" = some "h.co/p" := by
  refine ⟨by decide, by decide, by decide, by decide⟩

/-- Claim C7 as amended: the query string and fragment are dropped from
the dedup key — only host and pathname enter it — so any two parseable
URLs agreeing on host and pathname normalize to the same key no matter
their query or fragment. -/
theorem claimC7 (s₁ s₂ : String) (u₁ u₂ : URLRec)
    (h₁ : parseURL s₁ = some u₁) (h₂ : parseURL s₂ = some u₂)
    (hh : u₁.host = u₂.host) (hp : u₁.pathname = u₂.pathname) :
    normalizeURL s₁ = normalizeURL s₂ := by
  unfold normalizeURL
  rw [h₁, h₂]
  simp [normKey, hh, hp]

/-- Witness for C7's amended form at concrete inputs: `?a=1` and `?b=2`
URLs share the key. -/
theorem claimC7_witness :
    normalizeURL "https://h.co/p?a=1" = normalizeURL "https://h.co/p?b=2" :=
  claimC7 "https://h.co/p?a=1" "https://h.co/p?b=2"
    { scheme := "https", host := "h.co", pathname := "/p", search := "?a=1", hash := "" }
    { scheme := "https", host := "h.co", pathname := "/p", search := "?b=2", hash := "" }
    (by decide) (by decide) rfl rfl

/-- Claim C3: for every document, `getFirstParagraphFromHTML` returns the
trimmed text of the first `p` inside the first `main` element when one
exists there; otherwise the trimmed text of the first `p` anywhere in the
document; otherwise the empty string — a `main` with no `p` falls through
to the document-wide search. -/
theorem claimC3 : ∀ doc : Doc, getFirstParagraphFromHTML doc = firstParagraphSpec doc := by
  intro doc
  unfold getFirstParagraphFromHTML firstParagraphSpec
  cases hm : querySelector doc "main" with
  | none =>
    have hq : querySelector doc "p" = (querySelectorAll doc "p").head? := rfl
    cases hp : querySelectorAll doc "p" with
    | nil => simp [hq, hp, trimString]
    | cons p ps => simp [hq, hp]
  | some m =>
    simp only [queryDesc_eq_head]
    cases hpd : m.queryAllDesc "p" with
    | cons p ps => simp
    | nil =>
      have hq : querySelector doc "p" = (querySelectorAll doc "p").head? := rfl
      cases hp : querySelectorAll doc "p" with
      | nil => simp [hq, hp, trimString]
      | cons p ps => simp [hq, hp]

/-- Claim C5 fails on the code as stated: an anchor with `href=""` (and an
image with `src=""`) has the attribute and the empty reference resolves
against the base, yet the element contributes nothing to the result. -/
theorem claimC5_counterexample :
    getURLsFromHTML [Node.elem "a" [("href", "")] []] "https://h.co" ≠
      urlsClaimedC5 [Node.elem "a" [("href", "")] []] "https://h.co" ∧
    getImagesFromHTML [Node.elem "img" [("src", "")] []] "https://h.co" ≠
      imgsClaimedC5 [Node.elem "img" [("src", "")] []] "https://h.co" := by
  constructor <;> decide

/-- Claim C5 as amended: the extraction equals the document-order
filter-map that drops anchors (images) lacking the attribute or carrying
an empty attribute value, and drops unresolvable references while keeping
the rest in order. -/
theorem claimC5 : ∀ (doc : Doc) (baseURL : String),
    getURLsFromHTML doc baseURL = urlsAmendedC5 doc baseURL ∧
    getImagesFromHTML doc baseURL = imgsAmendedC5 doc baseURL := by
  intro doc baseURL
  exact ⟨getURLs_eq doc baseURL, getImages_eq doc baseURL⟩

/-- Claim C10: inserting an anchor whose `href` is the empty string (or
an image whose `src` is) anywhere at the top level changes nothing in the
extraction result, even though the empty reference resolves successfully
against any parseable base. -/
theorem claimC10 (baseURL : String) (rb : URLRec) (hb : parseURL baseURL = some rb) :
    (∀ pre post : Doc,
      getURLsFromHTML (pre ++ Node.elem "a" [("href", "")] [] :: post) baseURL =
        getURLsFromHTML (pre ++ post) baseURL) ∧
    (∀ pre post : Doc,
      getImagesFromHTML (pre ++ Node.elem "img" [("src", "")] [] :: post) baseURL =
        getImagesFromHTML (pre ++ post) baseURL) ∧
    (resolveURL "" baseURL).isSome = true := by
  refine ⟨?_, ?_, ?_⟩
  · intro pre post
    rw [getURLs_eq, getURLs_eq]
    unfold urlsAmendedC5 querySelectorAll
    rw [show (Node.elem "a" [("href", "")] [] :: post) =
        ([Node.elem "a" [("href", "")] []] ++ post) from rfl,
      selectAllL_append, selectAllL_append, selectAllL_append]
    simp [selectAllL, selectAllN, Node.getAttr, List.filterMap_append]
  · intro pre post
    rw [getImages_eq, getImages_eq]
    unfold imgsAmendedC5 querySelectorAll
    rw [show (Node.elem "img" [("src", "")] [] :: post) =
        ([Node.elem "img" [("src", "")] []] ++ post) from rfl,
      selectAllL_append, selectAllL_append, selectAllL_append]
    simp [selectAllL, selectAllN, Node.getAttr, List.filterMap_append]
  · rw [show (resolveURL "" baseURL) =
        (match parseURL baseURL with
         | none => none
         | some rbb => some (serializeURL { rbb with hash := "" })) from rfl]
    rw [hb]
    rfl

/-- Witness for C10 at concrete inputs: an empty-`href` anchor and an
empty-`src` image contribute nothing, while the empty reference resolves
against `https://h.co`. -/
theorem claimC10_witness :
    getURLsFromHTML [Node.elem "a" [("href", "")] []] "https://h.co" =
      getURLsFromHTML [] "https://h.co" ∧
    getImagesFromHTML [Node.elem "img" [("src", "")] []] "https://h.co" =
      getImagesFromHTML [] "https://h.co" ∧
    (resolveURL "" "https://h.co").isSome = true := by
  have h := claimC10 "https://h.co"
    { scheme := "https", host := "h.co", pathname := "/", search := "", hash := "" }
    (by decide)
  exact ⟨h.1 [] [], h.2.1 [] [], h.2.2⟩
